import Mathlib

/-
Verification development for the Hospital-Model-Audit-Website repository.

The code under audit is the tail of `AuditModel.analyze` in
`src/backend/model.py`: it renders a metrics mapping into a prompt and
best-effort parses the generated text as JSON.  Python strings are modelled
as `List Char`; the Python `json.loads` call is modelled by a fuel-based
recursive-descent parser following the grammar accepted by CPython's `json`
module (objects, arrays, strings with escapes, numbers via the scanner's
regular expression, `true`/`false`/`null`, and the default-accepted
constants `NaN`/`Infinity`/`-Infinity`, whose lexemes are kept verbatim
since no claim inspects numeric values).  A `\uXXXX` escape denoting a lone
surrogate, unrepresentable in a Lean `Char`, decodes to the NUL character;
no claim depends on surrogate escapes.
-/

set_option autoImplicit false

namespace HospitalAudit

/-- The characters of a Lean string literal, as the model of a Python `str`. -/
def lit (s : String) : List Char := s.data

/-- Whitespace stripped by Python `str.strip()`: exactly the code points on
which `str.isspace()` holds (`Py_UNICODE_ISSPACE`): 0x09-0x0D, 0x1C-0x1F,
0x20, 0x85 (NEL), 0xA0 (NBSP), 0x1680, 0x2000-0x200A, 0x2028, 0x2029,
0x202F, 0x205F and 0x3000. -/
def pyIsSpace (c : Char) : Bool :=
  (0x09 ≤ c.toNat && c.toNat ≤ 0x0D) || c.toNat = 0x20
    || (0x1C ≤ c.toNat && c.toNat ≤ 0x1F) || c.toNat = 0x85 || c.toNat = 0xA0
    || c.toNat = 0x1680 || (0x2000 ≤ c.toNat && c.toNat ≤ 0x200A)
    || c.toNat = 0x2028 || c.toNat = 0x2029 || c.toNat = 0x202F
    || c.toNat = 0x205F || c.toNat = 0x3000

/-- Python `str.strip()`. -/
def pyStrip (s : List Char) : List Char :=
  ((s.dropWhile pyIsSpace).reverse.dropWhile pyIsSpace).reverse

/-- Index of the first occurrence of `c`, if any. -/
def firstIdx (c : Char) : List Char → Option Nat
  | [] => none
  | x :: xs => if x = c then some 0 else (firstIdx c xs).map (· + 1)

/-- Index of the last occurrence of `c`, if any. -/
def lastIdx (c : Char) : List Char → Option Nat
  | [] => none
  | x :: xs =>
    match lastIdx c xs with
    | some i => some (i + 1)
    | none => if x = c then some 0 else none

/-- Python `str.find`: first index of `c`, or `-1`. -/
def pyFind (s : List Char) (c : Char) : Int :=
  match firstIdx c s with
  | some i => (i : Int)
  | none => -1

/-- Python `str.rfind`: last index of `c`, or `-1`. -/
def pyRfind (s : List Char) (c : Char) : Int :=
  match lastIdx c s with
  | some i => (i : Int)
  | none => -1

/-- Python slice `s[a:b]` for nonnegative bounds. -/
def pySlice (s : List Char) (a b : Nat) : List Char :=
  (s.take b).drop a

mutual

/-- The values produced by `json.loads`.  Numeric literals (and the constants
`NaN`, `Infinity`, `-Infinity`) keep their source lexeme; objects keep their
key/value pairs in parse order, duplicates included, with dict lookup
semantics (`objGet`) resolving to the last occurrence. -/
inductive JValue where
  | null : JValue
  | bool : Bool → JValue
  | num : List Char → JValue
  | str : List Char → JValue
  | arr : JArr → JValue
  | obj : JObj → JValue
  deriving DecidableEq

/-- The element list of a JSON array. -/
inductive JArr where
  | nil : JArr
  | cons : JValue → JArr → JArr
  deriving DecidableEq

/-- The member list of a JSON object, in parse order. -/
inductive JObj where
  | nil : JObj
  | cons : List Char → JValue → JObj → JObj
  deriving DecidableEq

end

/-- Build an object member list from a plain list of pairs. -/
def objOf : List (List Char × JValue) → JObj
  | [] => JObj.nil
  | (k, v) :: rest => JObj.cons k v (objOf rest)

/-- Python `dict` lookup on the member list of a parsed object: the last
occurrence of a key wins, as when CPython's decoder builds the dict. -/
def objGet (fields : JObj) (k : List Char) : Option JValue :=
  match fields with
  | JObj.nil => none
  | JObj.cons k2 v rest =>
    match objGet rest k with
    | some v2 => some v2
    | none => if k2 = k then some v else none

/-- The whitespace accepted between JSON tokens (`json.decoder.WHITESPACE`). -/
def jsonWs (c : Char) : Bool :=
  c = ' ' || c = '\t' || c = '\n' || c = '\r'

/-- Skip inter-token whitespace. -/
def skipWs (s : List Char) : List Char :=
  s.dropWhile jsonWs

/-- Value of a hexadecimal digit. -/
def hexVal (c : Char) : Option Nat :=
  if '0' ≤ c ∧ c ≤ '9' then some (c.toNat - '0'.toNat)
  else if 'a' ≤ c ∧ c ≤ 'f' then some (c.toNat - 'a'.toNat + 10)
  else if 'A' ≤ c ∧ c ≤ 'F' then some (c.toNat - 'A'.toNat + 10)
  else none

/-- Four hex digits of a `\uXXXX` escape. -/
def parse4Hex : List Char → Option (Nat × List Char)
  | a :: b :: c :: d :: rest =>
    match hexVal a, hexVal b, hexVal c, hexVal d with
    | some x, some y, some z, some w => some (((x * 16 + y) * 16 + z) * 16 + w, rest)
    | _, _, _, _ => none
  | _ => none

/-- Body of a JSON string after the opening quote, following CPython's
`py_scanstring` in strict mode: the recognised escapes, rejection of raw
control characters, and surrogate-pair combination for `\uXXXX`.  Returns
the decoded characters and the input after the closing quote. -/
def parseStringRest : Nat → List Char → Option (List Char × List Char)
  | 0, _ => none
  | _, [] => none
  | fuel + 1, c :: rest =>
    if c = '"' then some ([], rest)
    else if c = '\\' then
      match rest with
      | [] => none
      | e :: rest2 =>
        if e = '"' then (parseStringRest fuel rest2).map (fun p => ('"' :: p.1, p.2))
        else if e = '\\' then (parseStringRest fuel rest2).map (fun p => ('\\' :: p.1, p.2))
        else if e = '/' then (parseStringRest fuel rest2).map (fun p => ('/' :: p.1, p.2))
        else if e = 'b' then (parseStringRest fuel rest2).map (fun p => ('\x08' :: p.1, p.2))
        else if e = 'f' then (parseStringRest fuel rest2).map (fun p => ('\x0c' :: p.1, p.2))
        else if e = 'n' then (parseStringRest fuel rest2).map (fun p => ('\n' :: p.1, p.2))
        else if e = 'r' then (parseStringRest fuel rest2).map (fun p => ('\r' :: p.1, p.2))
        else if e = 't' then (parseStringRest fuel rest2).map (fun p => ('\t' :: p.1, p.2))
        else if e = 'u' then
          match parse4Hex rest2 with
          | none => none
          | some (n, rest3) =>
            if 0xD800 ≤ n ∧ n < 0xDC00 then
              match rest3 with
              | '\\' :: 'u' :: rest4 =>
                match parse4Hex rest4 with
                | some (m, rest5) =>
                  if 0xDC00 ≤ m ∧ m < 0xE000 then
                    (parseStringRest fuel rest5).map
                      (fun p => (Char.ofNat (0x10000 + (n - 0xD800) * 0x400 + (m - 0xDC00)) :: p.1, p.2))
                  else (parseStringRest fuel rest3).map (fun p => (Char.ofNat n :: p.1, p.2))
                | none => (parseStringRest fuel rest3).map (fun p => (Char.ofNat n :: p.1, p.2))
              | _ => (parseStringRest fuel rest3).map (fun p => (Char.ofNat n :: p.1, p.2))
            else (parseStringRest fuel rest3).map (fun p => (Char.ofNat n :: p.1, p.2))
        else none
    else if c.toNat < 0x20 then none
    else (parseStringRest fuel rest).map (fun p => (c :: p.1, p.2))

/-- Optional fractional part `\.\d+` of the number regular expression. -/
def numFrac (s : List Char) : List Char × List Char :=
  match s with
  | '.' :: t =>
    let ds := t.takeWhile Char.isDigit
    if ds = [] then ([], s) else ('.' :: ds, t.dropWhile Char.isDigit)
  | _ => ([], s)

/-- Optional exponent part `[eE][-+]?\d+` of the number regular expression. -/
def numExp (s : List Char) : List Char × List Char :=
  match s with
  | e :: t =>
    if e = 'e' ∨ e = 'E' then
      match t with
      | sgn :: u =>
        if sgn = '+' ∨ sgn = '-' then
          let ds := u.takeWhile Char.isDigit
          if ds = [] then ([], s) else (e :: sgn :: ds, u.dropWhile Char.isDigit)
        else
          let ds := t.takeWhile Char.isDigit
          if ds = [] then ([], s) else (e :: ds, t.dropWhile Char.isDigit)
      | [] => ([], s)
    else ([], s)
  | [] => ([], s)

/-- Maximal match of CPython's `json` number regular expression
`-?(0|[1-9]\d*)(\.\d+)?([eE][-+]?\d+)?` at the start of the input; returns
the lexeme and the remaining input. -/
def parseNumber (s : List Char) : Option (List Char × List Char) :=
  let p : List Char × List Char :=
    match s with
    | '-' :: t => (['-'], t)
    | _ => ([], s)
  match p.2 with
  | [] => none
  | c :: t =>
    if c = '0' then
      let q := numFrac t
      let r := numExp q.2
      some (p.1 ++ '0' :: (q.1 ++ r.1), r.2)
    else if c.isDigit then
      let ds := t.takeWhile Char.isDigit
      let q := numFrac (t.dropWhile Char.isDigit)
      let r := numExp q.2
      some (p.1 ++ c :: ds ++ q.1 ++ r.1, r.2)
    else none

mutual

/-- One JSON value, after CPython's `scan_once` (leading whitespace is
skipped by the callers that allow it, which here is folded into the
dispatch).  The fuel only bounds recursion depth; `pyJsonLoads` supplies
enough fuel for every input the Python scanner accepts. -/
def parseValue : Nat → List Char → Option (JValue × List Char)
  | 0, _ => none
  | fuel + 1, s =>
    match skipWs s with
    | [] => none
    | c :: rest =>
      if c = '{' then
        match parseObjBody fuel rest with
        | some (fs, r) => some (JValue.obj fs, r)
        | none => none
      else if c = '[' then
        match parseArrBody fuel rest with
        | some (xs, r) => some (JValue.arr xs, r)
        | none => none
      else if c = '"' then
        match parseStringRest (rest.length + 1) rest with
        | some (cs, r) => some (JValue.str cs, r)
        | none => none
      else if c = 't' then
        match rest with
        | 'r' :: 'u' :: 'e' :: r => some (JValue.bool true, r)
        | _ => none
      else if c = 'f' then
        match rest with
        | 'a' :: 'l' :: 's' :: 'e' :: r => some (JValue.bool false, r)
        | _ => none
      else if c = 'n' then
        match rest with
        | 'u' :: 'l' :: 'l' :: r => some (JValue.null, r)
        | _ => none
      else if c = 'N' then
        match rest with
        | 'a' :: 'N' :: r => some (JValue.num (lit "NaN"), r)
        | _ => none
      else if c = 'I' then
        match rest with
        | 'n' :: 'f' :: 'i' :: 'n' :: 'i' :: 't' :: 'y' :: r =>
          some (JValue.num (lit "Infinity"), r)
        | _ => none
      else if c = '-' then
        match parseNumber (c :: rest) with
        | some (lex, r) => some (JValue.num lex, r)
        | none =>
          match rest with
          | 'I' :: 'n' :: 'f' :: 'i' :: 'n' :: 'i' :: 't' :: 'y' :: r =>
            some (JValue.num (lit "-Infinity"), r)
          | _ => none
      else
        match parseNumber (c :: rest) with
        | some (lex, r) => some (JValue.num lex, r)
        | none => none

/-- Object body after the opening brace (CPython `JSONObject`). -/
def parseObjBody : Nat → List Char → Option (JObj × List Char)
  | 0, _ => none
  | fuel + 1, s =>
    match skipWs s with
    | '}' :: r => some (JObj.nil, r)
    | '"' :: r =>
      match parseStringRest (r.length + 1) r with
      | some (key, r2) =>
        match skipWs r2 with
        | ':' :: r3 =>
          match parseValue fuel r3 with
          | some (v, r4) =>
            match parseObjRest fuel r4 with
            | some (more, r5) => some (JObj.cons key v more, r5)
            | none => none
          | none => none
        | _ => none
      | none => none
    | _ => none

/-- After one object member: a comma and another member, or the closing brace. -/
def parseObjRest : Nat → List Char → Option (JObj × List Char)
  | 0, _ => none
  | fuel + 1, s =>
    match skipWs s with
    | '}' :: r => some (JObj.nil, r)
    | ',' :: r =>
      match skipWs r with
      | '"' :: r1 =>
        match parseStringRest (r1.length + 1) r1 with
        | some (key, r2) =>
          match skipWs r2 with
          | ':' :: r3 =>
            match parseValue fuel r3 with
            | some (v, r4) =>
              match parseObjRest fuel r4 with
              | some (more, r5) => some (JObj.cons key v more, r5)
              | none => none
            | none => none
          | _ => none
        | none => none
      | _ => none
    | _ => none

/-- Array body after the opening bracket (CPython `JSONArray`). -/
def parseArrBody : Nat → List Char → Option (JArr × List Char)
  | 0, _ => none
  | fuel + 1, s =>
    match skipWs s with
    | ']' :: r => some (JArr.nil, r)
    | _ =>
      match parseValue fuel (skipWs s) with
      | some (v, r) =>
        match parseArrRest fuel r with
        | some (vs, r2) => some (JArr.cons v vs, r2)
        | none => none
      | none => none

/-- After one array element: a comma and another element, or the closing bracket. -/
def parseArrRest : Nat → List Char → Option (JArr × List Char)
  | 0, _ => none
  | fuel + 1, s =>
    match skipWs s with
    | ']' :: r => some (JArr.nil, r)
    | ',' :: r =>
      match parseValue fuel r with
      | some (v, r2) =>
        match parseArrRest fuel r2 with
        | some (vs, r3) => some (JArr.cons v vs, r3)
        | none => none
      | none => none
    | _ => none

end

/-- Model of `json.loads`: parse one value and require only whitespace after
it, returning `none` exactly where CPython raises `json.JSONDecodeError`. -/
def pyJsonLoads (s : List Char) : Option JValue :=
  match parseValue (2 * s.length + 2) s with
  | some (v, rest) => if skipWs rest = [] then some v else none
  | none => none

/-- The dict built by the no-JSON fallback branch of `AuditModel.analyze`
(`model.py` lines 101-105): label `"Analysis Generated"`, explanation the
stripped generated text. -/
def analysisGenerated (generated_text : List Char) : JValue :=
  JValue.obj (objOf
    [(lit "label", JValue.str (lit "Analysis Generated")),
     (lit "explanation", JValue.str (pyStrip generated_text))])

/-- The dict built by the `except json.JSONDecodeError` handler of
`AuditModel.analyze` (`model.py` lines 106-110): label `"Parsing Error"`,
explanation the f-string holding the raw, untrimmed generated text. -/
def parsingErrorResult (generated_text : List Char) : JValue :=
  JValue.obj (objOf
    [(lit "label", JValue.str (lit "Parsing Error")),
     (lit "explanation",
      JValue.str (lit "Could not parse model output as JSON. Raw output: " ++ generated_text))])

/-- `json_str = generated_text[start_idx:end_idx]` of `model.py` line 98,
with `start_idx = generated_text.find('\x7b')` and
`end_idx = generated_text.rfind('\x7d') + 1` (lines 95-96). -/
def extractSpan (generated_text : List Char) : List Char :=
  pySlice generated_text (pyFind generated_text '{').toNat
    (pyRfind generated_text '}' + 1).toNat

/-- The body of the `try:` block on `model.py` lines 93-105.  An
`Except.error` is the `json.JSONDecodeError` that `json.loads` may raise;
everything else in the block is exception-free. -/
def tryBlock (generated_text : List Char) : Except Unit JValue :=
  if pyFind generated_text '{' ≠ -1 ∧ pyRfind generated_text '}' + 1 ≠ -1 then
    match pyJsonLoads (extractSpan generated_text) with
    | some v => Except.ok v
    | none => Except.error ()
  else
    Except.ok (analysisGenerated generated_text)

/-- The output interpreter: the `try`/`except json.JSONDecodeError` tail of
`AuditModel.analyze` (`model.py` lines 93-110) applied to the generated
text. -/
def interpretOutput (generated_text : List Char) : JValue :=
  match tryBlock generated_text with
  | Except.ok v => v
  | Except.error _ => parsingErrorResult generated_text

/-- One line of the metrics block: `f"- \x7bk\x7d: \x7bv\x7d"` from
`model.py` line 55, with the value already rendered as text. -/
def metricLine (kv : List Char × List Char) : List Char :=
  lit "- " ++ kv.1 ++ lit ": " ++ kv.2

/-- Python `sep.join(parts)`. -/
def joinWith (sep : List Char) : List (List Char) → List Char
  | [] => []
  | [p] => p
  | p :: q :: ps => p ++ sep ++ joinWith sep (q :: ps)

/-- `metrics_str = "\n".join([f"- \x7bk\x7d: \x7bv\x7d" for k, v in metrics.items()])`
(`model.py` line 55).  The metrics mapping is modelled as its insertion-order
item list, keys and rendered values as text. -/
def renderMetrics (metrics : List (List Char × List Char)) : List Char :=
  joinWith (lit "\n") (metrics.map metricLine)

/-- Python `s.split(c)` for a single-character separator: used to state what
"one line per entry" means for the rendered metrics block. -/
def splitOnChar (c : Char) : List Char → List (List Char)
  | [] => [[]]
  | x :: xs =>
    match splitOnChar c xs with
    | [] => [[]]
    | y :: ys => if x = c then [] :: y :: ys else (x :: y) :: ys

/-! ### Helper lemmas about the string primitives -/

theorem firstIdx_eq_none_iff (c : Char) (s : List Char) :
    firstIdx c s = none ↔ c ∉ s := by
  induction s with
  | nil => simp [firstIdx]
  | cons x xs ih =>
    by_cases hx : x = c
    · subst hx
      simp [firstIdx]
    · simp [firstIdx, hx, Option.map_eq_none', ih, List.mem_cons]
      intro h
      exact fun he => hx he.symm

theorem firstIdx_get? (c : Char) :
    ∀ (s : List Char) (i : Nat), firstIdx c s = some i → s.get? i = some c := by
  intro s
  induction s with
  | nil => intro i h; simp [firstIdx] at h
  | cons x xs ih =>
    intro i h
    by_cases hx : x = c
    · subst hx
      simp [firstIdx] at h
      subst h
      rfl
    · simp [firstIdx, hx] at h
      obtain ⟨j, hj, rfl⟩ := h
      simpa [List.get?] using ih j hj

theorem head?_drop_eq_get? : ∀ (n : Nat) (l : List Char), (l.drop n).head? = l.get? n := by
  intro n
  induction n with
  | zero => intro l; cases l <;> rfl
  | succ m ih =>
    intro l
    cases l with
    | nil => rfl
    | cons x xs => simp [List.drop, List.get?, ih xs]

theorem get?_take_of_lt :
    ∀ (e i : Nat) (l : List Char), i < e → (l.take e).get? i = l.get? i := by
  intro e
  induction e with
  | zero => intro i l h; omega
  | succ m ih =>
    intro i l h
    cases l with
    | nil => simp
    | cons x xs =>
      cases i with
      | zero => rfl
      | succ j => simpa [List.take, List.get?] using ih j xs (by omega)

theorem lastIdx_eq_none_iff (c : Char) (s : List Char) :
    lastIdx c s = none ↔ c ∉ s := by
  induction s with
  | nil => simp [lastIdx]
  | cons x xs ih =>
    cases h : lastIdx c xs with
    | some i =>
      have : c ∈ xs := by
        by_contra hn
        rw [(ih.mpr hn : lastIdx c xs = none)] at h
        exact Option.noConfusion h
      simp [lastIdx, h, List.mem_cons, this]
    | none =>
      have hxs : c ∉ xs := ih.mp h
      by_cases hx : x = c
      · subst hx
        simp [lastIdx, h]
      · simp [lastIdx, h, hx, List.mem_cons, hxs]
        exact fun he => hx he.symm

theorem pyRfind_succ_ne_neg_one (t : List Char) (c : Char) : pyRfind t c + 1 ≠ -1 := by
  cases h : lastIdx c t with
  | none =>
    simp [pyRfind, h]
  | some i =>
    have h1 : (0 : Int) ≤ (i : Int) := Int.natCast_nonneg i
    simp only [pyRfind, h]
    omega

theorem pyFind_eq_neg_one_iff (t : List Char) (c : Char) : pyFind t c = -1 ↔ c ∉ t := by
  cases h : firstIdx c t with
  | none =>
    simp only [pyFind, h]
    simp
    exact (firstIdx_eq_none_iff c t).mp h
  | some i =>
    have h1 : (0 : Int) ≤ (i : Int) := Int.natCast_nonneg i
    have h2 : c ∈ t := by
      by_contra hn
      rw [(firstIdx_eq_none_iff c t).mpr hn] at h
      exact Option.noConfusion h
    simp only [pyFind, h]
    constructor
    · intro hEq
      omega
    · intro hn
      exact absurd h2 hn

/-! ### Helper lemmas about the interpreter's control flow -/

theorem interpret_no_lbrace (t : List Char) (h : '{' ∉ t) :
    interpretOutput t = analysisGenerated t := by
  have h1 : pyFind t '{' = -1 := (pyFind_eq_neg_one_iff t '{').mpr h
  simp [interpretOutput, tryBlock, h1]

theorem interpret_with_lbrace (t : List Char) (hm : '{' ∈ t) :
    interpretOutput t =
      (match pyJsonLoads (extractSpan t) with
       | some v => v
       | none => parsingErrorResult t) := by
  have h1 : pyFind t '{' ≠ -1 := fun h => absurd ((pyFind_eq_neg_one_iff t '{').mp h) (by simp [hm])
  have h2 : pyRfind t '}' + 1 ≠ -1 := pyRfind_succ_ne_neg_one t '}'
  unfold interpretOutput tryBlock
  rw [if_pos ⟨h1, h2⟩]
  cases pyJsonLoads (extractSpan t) <;> rfl

theorem interpret_parse_ok (t : List Char) (v : JValue) (hm : '{' ∈ t)
    (h : pyJsonLoads (extractSpan t) = some v) : interpretOutput t = v := by
  rw [interpret_with_lbrace t hm, h]

theorem interpret_parse_fail (t : List Char) (hm : '{' ∈ t)
    (h : pyJsonLoads (extractSpan t) = none) : interpretOutput t = parsingErrorResult t := by
  rw [interpret_with_lbrace t hm, h]

theorem extractSpan_of_no_rbrace (t : List Char) (h : '}' ∉ t) : extractSpan t = [] := by
  have h1 : pyRfind t '}' = -1 := by
    unfold pyRfind
    rw [(lastIdx_eq_none_iff '}' t).mpr h]
  simp [extractSpan, pySlice, h1]

theorem pyJsonLoads_nil : pyJsonLoads [] = none := rfl

theorem pySlice_eq_nil_of_le (s : List Char) (a b : Nat) (h : b ≤ a) : pySlice s a b = [] := by
  apply List.eq_nil_of_length_eq_zero
  rw [pySlice, List.length_drop, List.length_take]
  have h1 : min b s.length ≤ b := Nat.min_le_left _ _
  omega

theorem extractSpan_head (t : List Char) (hm : '{' ∈ t) (hne : extractSpan t ≠ []) :
    (extractSpan t).head? = some '{' := by
  obtain ⟨i, hi⟩ : ∃ i, firstIdx '{' t = some i := by
    cases h : firstIdx '{' t with
    | none => exact absurd hm ((firstIdx_eq_none_iff '{' t).mp h)
    | some i => exact ⟨i, rfl⟩
  have hf : (pyFind t '{').toNat = i := by simp [pyFind, hi]
  have hs : extractSpan t = (t.take (pyRfind t '}' + 1).toNat).drop i := by
    rw [extractSpan, pySlice, hf]
  rw [hs] at hne ⊢
  have hlen : i < (t.take (pyRfind t '}' + 1).toNat).length := by
    by_contra hle
    push_neg at hle
    exact hne (List.drop_eq_nil_of_le hle)
  have hie : i < (pyRfind t '}' + 1).toNat := by
    rw [List.length_take] at hlen
    omega
  rw [head?_drop_eq_get?, get?_take_of_lt _ i t hie]
  exact firstIdx_get? '{' t i hi

theorem loads_head_obj (s : List Char) (v : JValue) (h : pyJsonLoads s = some v)
    (hh : s.head? = some '{') : ∃ fs, v = JValue.obj fs := by
  cases s with
  | nil => exact absurd hh (by simp)
  | cons c rest =>
    have hc : c = '{' := by simpa using hh
    subst hc
    rw [pyJsonLoads] at h
    have hlen : 2 * (('{' :: rest).length) + 2 = (2 * rest.length + 3) + 1 := by
      simp [List.length_cons]
      ring
    rw [hlen] at h
    rw [parseValue] at h
    have hws : skipWs ('{' :: rest) = '{' :: rest := by
      simp [skipWs, List.dropWhile, jsonWs]
    rw [hws] at h
    simp only [if_pos rfl] at h
    cases hob : parseObjBody (2 * rest.length + 3) rest with
    | none => rw [hob] at h; exact Option.noConfusion h
    | some p =>
      rw [hob] at h
      by_cases hr : skipWs p.2 = []
      · refine ⟨p.1, ?_⟩
        simp [hr] at h
        exact h.symm
      · simp [hr] at h

/-! ### Helper lemmas for the rendered metrics block -/

theorem splitOnChar_ne_nil (c : Char) (s : List Char) : splitOnChar c s ≠ [] := by
  cases s with
  | nil => exact fun h => List.noConfusion h
  | cons x xs =>
    rw [splitOnChar]
    cases h : splitOnChar c xs with
    | nil => exact fun h2 => List.noConfusion h2
    | cons y ys => by_cases hx : x = c <;> simp [hx]

theorem splitOnChar_append (c : Char) :
    ∀ (l s y : List Char) (ys : List (List Char)),
      c ∉ l → splitOnChar c s = y :: ys →
      splitOnChar c (l ++ s) = (l ++ y) :: ys := by
  intro l
  induction l with
  | nil =>
    intro s y ys _ h
    simpa using h
  | cons x xs ih =>
    intro s y ys hc h
    have hx : x ≠ c := fun he => hc (he ▸ List.mem_cons_self x xs)
    have h2 := ih s y ys (fun hm => hc (List.mem_cons_of_mem x hm)) h
    rw [List.cons_append, splitOnChar, h2]
    simp [hx]

theorem splitOnChar_of_not_mem (c : Char) (l : List Char) (hc : c ∉ l) :
    splitOnChar c l = [l] := by
  have h := splitOnChar_append c l [] [] [] hc rfl
  simpa using h

theorem splitOnChar_cons_self (c : Char) (s : List Char) :
    splitOnChar c (c :: s) = [] :: splitOnChar c s := by
  rw [splitOnChar]
  cases h : splitOnChar c s with
  | nil => exact absurd h (splitOnChar_ne_nil c s)
  | cons y ys => simp

theorem metricLine_no_newline (kv : List Char × List Char)
    (h1 : ('\n' : Char) ∉ kv.1) (h2 : ('\n' : Char) ∉ kv.2) :
    ('\n' : Char) ∉ metricLine kv := by
  simp [metricLine, lit, List.mem_append]
  exact ⟨fun h => h1 h, fun h => h2 h⟩

theorem renderMetrics_lines (m : List (List Char × List Char)) (hne : m ≠ [])
    (h : ∀ kv ∈ m, ('\n' : Char) ∉ kv.1 ∧ ('\n' : Char) ∉ kv.2) :
    splitOnChar '\n' (renderMetrics m) = m.map metricLine := by
  induction m with
  | nil => exact absurd rfl hne
  | cons kv rest ih =>
    have hkv := h kv (List.mem_cons_self kv rest)
    have hnl : ('\n' : Char) ∉ metricLine kv := metricLine_no_newline kv hkv.1 hkv.2
    cases rest with
    | nil =>
      simp [renderMetrics, joinWith, splitOnChar_of_not_mem '\n' _ hnl]
    | cons kv2 rest2 =>
      have htail := ih (fun h2 => List.noConfusion h2)
        (fun kv' hm => h kv' (List.mem_cons_of_mem kv hm))
      have hjoin : renderMetrics (kv :: kv2 :: rest2)
          = metricLine kv ++ '\n' :: renderMetrics (kv2 :: rest2) := by
        simp [renderMetrics, joinWith, lit]
      have hs : splitOnChar '\n' ('\n' :: renderMetrics (kv2 :: rest2))
          = [] :: List.map metricLine (kv2 :: rest2) := by
        rw [splitOnChar_cons_self, htail]
      have hall := splitOnChar_append '\n' (metricLine kv)
        ('\n' :: renderMetrics (kv2 :: rest2)) [] (List.map metricLine (kv2 :: rest2)) hnl hs
      rw [hjoin, hall]
      simp

/-! ### Claim theorems -/

/-- Claim C1, counterexample: the claim also covers texts that contain a
'\x7b' but no closing '\x7d', such as the one-character text "\x7b"; on it the
interpreter returns the "Parsing Error" result, not the "Analysis Generated"
result the claim promises. -/
theorem claim_C1_counterexample :
    interpretOutput (lit "\x7b") = parsingErrorResult (lit "\x7b")
    ∧ interpretOutput (lit "\x7b") ≠ JValue.obj (objOf
        [(lit "label", JValue.str (lit "Analysis Generated")),
         (lit "explanation", JValue.str (lit "\x7b"))]) := by
  decide

/-- Claim C1, amended: for every raw generated text in which no '\x7b' is
found, the interpreter returns label "Analysis Generated" with the
trimmed raw text as explanation.  (The "or no closing '\x7d'" half of the
original claim is dropped: `end_idx = rfind('\x7d') + 1` is never `-1`.) -/
theorem claim_C1_theorem (t : List Char) (h : ('{' : Char) ∉ t) :
    interpretOutput t = JValue.obj (objOf
      [(lit "label", JValue.str (lit "Analysis Generated")),
       (lit "explanation", JValue.str (pyStrip t))]) :=
  interpret_no_lbrace t h

/-- Claim C1, witness: a concrete brace-free text taken through the amended
theorem. -/
theorem claim_C1_witness :
    interpretOutput (lit "all good") = JValue.obj (objOf
      [(lit "label", JValue.str (lit "Analysis Generated")),
       (lit "explanation", JValue.str (lit "all good"))]) :=
  claim_C1_theorem (lit "all good") (by decide)

/-- Claim C2, counterexample: a raw text that contains a well-formed JSON
object with `label` and `explanation` (shown parsing on its own) but whose
first-'\x7b'-to-last-'\x7d' span is malformed because of a stray leading
'\x7b'; the interpreter returns the "Parsing Error" result instead of the
object's fields. -/
theorem claim_C2_counterexample :
    pyJsonLoads (lit "\x7b\"label\": \"No Drift\", \"explanation\": \"Stable\"\x7d")
      = some (JValue.obj (objOf
          [(lit "label", JValue.str (lit "No Drift")),
           (lit "explanation", JValue.str (lit "Stable"))]))
    ∧ interpretOutput (lit "\x7b\x7b\"label\": \"No Drift\", \"explanation\": \"Stable\"\x7d")
      = parsingErrorResult (lit "\x7b\x7b\"label\": \"No Drift\", \"explanation\": \"Stable\"\x7d")
    ∧ interpretOutput (lit "\x7b\x7b\"label\": \"No Drift\", \"explanation\": \"Stable\"\x7d")
      ≠ JValue.obj (objOf
          [(lit "label", JValue.str (lit "No Drift")),
           (lit "explanation", JValue.str (lit "Stable"))]) := by
  refine ⟨by decide, by decide, by decide⟩

/-- Claim C2, amended: for any raw text whose first-'\x7b'-to-last-'\x7d'
span parses as a JSON object, the interpreter returns exactly that parsed
object, its members (in particular `label` and `explanation`) unchanged. -/
theorem claim_C2_theorem (t : List Char) (fs : JObj) (hm : ('{' : Char) ∈ t)
    (h : pyJsonLoads (extractSpan t) = some (JValue.obj fs)) :
    interpretOutput t = JValue.obj fs :=
  interpret_parse_ok t (JValue.obj fs) hm h

/-- Claim C2, witness: the spec's example input evaluates to the parsed
object with `label` "No Drift" and `explanation` "Stable". -/
theorem claim_C2_witness :
    interpretOutput (lit "Analysis: \x7b\"label\": \"No Drift\", \"explanation\": \"Stable\"\x7d")
      = JValue.obj (objOf
          [(lit "label", JValue.str (lit "No Drift")),
           (lit "explanation", JValue.str (lit "Stable"))]) :=
  claim_C2_theorem _ _ (by decide) (by decide)

/-- Claim C3: `end_idx = rfind('\x7d') + 1` is never `-1`, so the guard of
the fallback branch fails exactly when the text has no '\x7b'; a text with a
'\x7b' but no '\x7d', or whose last '\x7d' precedes its first '\x7b', runs
`json.loads` on an empty span and yields the "Parsing Error" result. -/
theorem claim_C3_theorem (t : List Char) :
    (pyRfind t '}' + 1 ≠ -1)
    ∧ (¬(pyFind t '{' ≠ -1 ∧ pyRfind t '}' + 1 ≠ -1) ↔ ('{' : Char) ∉ t)
    ∧ (('{' : Char) ∈ t → ('}' : Char) ∉ t → interpretOutput t = parsingErrorResult t)
    ∧ (('{' : Char) ∈ t → pyRfind t '}' + 1 ≤ pyFind t '{' →
        interpretOutput t = parsingErrorResult t) := by
  refine ⟨pyRfind_succ_ne_neg_one t '}', ⟨?_, ?_⟩, ?_, ?_⟩
  · intro hn
    by_contra hm2
    apply hn
    refine ⟨?_, pyRfind_succ_ne_neg_one t '}'⟩
    intro hf
    exact absurd ((pyFind_eq_neg_one_iff t '{').mp hf) (by simp [hm2])
  · intro hnm hand
    exact hand.1 ((pyFind_eq_neg_one_iff t '{').mpr hnm)
  · intro hm hnr
    apply interpret_parse_fail t hm
    rw [extractSpan_of_no_rbrace t hnr]
    exact pyJsonLoads_nil
  · intro hm hle
    apply interpret_parse_fail t hm
    have hnil : extractSpan t = [] := by
      rw [extractSpan]
      exact pySlice_eq_nil_of_le t _ _ (Int.toNat_le_toNat hle)
    rw [hnil]
    exact pyJsonLoads_nil

/-- Claim C3, witness: the inner implications applied to a text that has a
'\x7b' but no '\x7d'. -/
theorem claim_C3_witness :
    interpretOutput (lit "a\x7bbc") = parsingErrorResult (lit "a\x7bbc") :=
  (claim_C3_theorem (lit "a\x7bbc")).2.2.1 (by decide) (by decide)

/-- Claim C4: when the text has a '\x7b' and a '\x7d' but the extracted
first-'\x7b'-to-last-'\x7d' span is not valid JSON, the interpreter returns
label "Parsing Error" with the original, untrimmed raw text embedded in the
explanation. -/
theorem claim_C4_theorem (t : List Char) (hl : ('{' : Char) ∈ t)
    (_hr : ('}' : Char) ∈ t) (h : pyJsonLoads (extractSpan t) = none) :
    interpretOutput t = JValue.obj (objOf
      [(lit "label", JValue.str (lit "Parsing Error")),
       (lit "explanation",
        JValue.str (lit "Could not parse model output as JSON. Raw output: " ++ t))]) :=
  interpret_parse_fail t hl h

/-- Claim C4, witness: the spec's example input evaluates to the
"Parsing Error" result carrying the original text. -/
theorem claim_C4_witness :
    interpretOutput (lit "\x7bnot json\x7d") = JValue.obj (objOf
      [(lit "label", JValue.str (lit "Parsing Error")),
       (lit "explanation",
        JValue.str (lit "Could not parse model output as JSON. Raw output: \x7bnot json\x7d"))]) :=
  claim_C4_theorem (lit "\x7bnot json\x7d") (by decide) (by decide) (by decide)

/-- Claim C5: on every input the try-block either returns normally and the
interpreter passes its value through, or raises the modelled
`json.JSONDecodeError`, which is caught and recovered as the
"Parsing Error" result; no exception escapes to the caller. -/
theorem claim_C5_theorem (t : List Char) :
    (∃ v, tryBlock t = Except.ok v ∧ interpretOutput t = v)
    ∨ (tryBlock t = Except.error () ∧ interpretOutput t = parsingErrorResult t) := by
  cases h : tryBlock t with
  | ok v => exact Or.inl ⟨v, rfl, by simp [interpretOutput, h]⟩
  | error e =>
    cases e
    exact Or.inr ⟨rfl, by simp [interpretOutput, h]⟩

/-- Claim C6: a text with no '\x7b' yields label "Analysis Generated" and
the trimmed input as explanation. -/
theorem claim_C6_theorem (t : List Char) (h : ('{' : Char) ∉ t) :
    interpretOutput t = JValue.obj (objOf
      [(lit "label", JValue.str (lit "Analysis Generated")),
       (lit "explanation", JValue.str (pyStrip t))]) :=
  interpret_no_lbrace t h

/-- Claim C6, witness: the spec's example "  Looks fine.  " yields the
explanation "Looks fine." with surrounding whitespace trimmed. -/
theorem claim_C6_witness :
    interpretOutput (lit "  Looks fine.  ") = JValue.obj (objOf
      [(lit "label", JValue.str (lit "Analysis Generated")),
       (lit "explanation", JValue.str (lit "Looks fine."))]) :=
  claim_C6_theorem (lit "  Looks fine.  ") (by decide)

/-- Claim C7: the interpreter is a pure function of the generated text; two
runs on equal input strings yield equal outputs. -/
theorem claim_C7_theorem (t₁ t₂ : List Char) (h : t₁ = t₂) :
    interpretOutput t₁ = interpretOutput t₂ :=
  congrArg interpretOutput h

/-- Claim C7, witness: two runs on the same concrete string agree. -/
theorem claim_C7_witness :
    interpretOutput (lit "run twice") = interpretOutput (lit "run twice") :=
  claim_C7_theorem (lit "run twice") (lit "run twice") rfl

/-- Claim C8: the input consisting of exactly "\x7b\x7d" parses as the empty
object and is returned as-is, with neither a `label` nor an `explanation`
member. -/
theorem claim_C8_theorem :
    interpretOutput (lit "\x7b\x7d") = JValue.obj JObj.nil
    ∧ objGet JObj.nil (lit "label") = none
    ∧ objGet JObj.nil (lit "explanation") = none := by
  refine ⟨by decide, rfl, rfl⟩

/-- Claim C9, counterexample: a metrics mapping whose value contains a
newline renders to two lines for its single entry, so the rendered block
does not list one line per entry for every mapping. -/
theorem claim_C9_counterexample :
    splitOnChar '\n' (renderMetrics [(lit "a", lit "x\ny")])
      ≠ List.map metricLine [(lit "a", lit "x\ny")]
    ∧ (splitOnChar '\n' (renderMetrics [(lit "a", lit "x\ny")])).length = 2 := by
  refine ⟨by decide, by decide⟩

/-- Claim C9, amended: for every nonempty metrics mapping whose names and
rendered values contain no newline, splitting the rendered block on newlines
yields exactly one "- name: value" line per entry, in mapping order. -/
theorem claim_C9_theorem (m : List (List Char × List Char)) (hne : m ≠ [])
    (h : ∀ kv ∈ m, ('\n' : Char) ∉ kv.1 ∧ ('\n' : Char) ∉ kv.2) :
    splitOnChar '\n' (renderMetrics m) = m.map metricLine :=
  renderMetrics_lines m hne h

/-- Claim C9, witness: a concrete two-entry mapping renders to its two lines
in order. -/
theorem claim_C9_witness :
    splitOnChar '\n' (renderMetrics [(lit "accuracy", lit "0.95"), (lit "loss", lit "0.10")])
      = [lit "- accuracy: 0.95", lit "- loss: 0.10"] :=
  claim_C9_theorem [(lit "accuracy", lit "0.95"), (lit "loss", lit "0.10")]
    (by decide) (by decide)

/-- Claim C10: every value the interpreter returns is a JSON object: the two
fallback dicts are objects, and a successful parse starts at the text's
first '\x7b', so the parsed value can only be an object. -/
theorem claim_C10_theorem (t : List Char) : ∃ fs, interpretOutput t = JValue.obj fs := by
  by_cases hm : ('{' : Char) ∈ t
  · cases hload : pyJsonLoads (extractSpan t) with
    | none => exact ⟨_, interpret_parse_fail t hm hload⟩
    | some v =>
      have hne : extractSpan t ≠ [] := by
        intro hnil
        rw [hnil, pyJsonLoads_nil] at hload
        exact Option.noConfusion hload
      obtain ⟨fs, rfl⟩ := loads_head_obj (extractSpan t) v hload (extractSpan_head t hm hne)
      exact ⟨fs, interpret_parse_ok t _ hm hload⟩
  · exact ⟨_, interpret_no_lbrace t hm⟩

end HospitalAudit
